import Mathlib

/-!
Shallow embedding of the retrieval core of the catalog-retriever service
(`catalog_retriever/src/retriever.py` and `catalog_retriever/src/utils.py`),
together with theorems settling the specification claims about it.

Modelling conventions:
* Python `None` is `Option.none`; fallible remote calls are oracle functions
  returning `Option` values (`none` = the call raised an exception).
* Similarity scores are rationals (`ℚ`); embedding vectors are `List ℚ`.
* A Milvus search hit `(Document, score)` is a `Doc × ℚ`; the metadata fields
  the code reads (`pk`, `name`, `image`, `price`) are explicit fields of `Doc`.
  `pk` is `Option String`, holding `str(pk_value)` when the key is present and
  not `None`.
* Python's stable `sorted(key=score, reverse=True)` is `List.mergeSort` with
  the boolean relation `b.score ≤ a.score` (stable, descending).
-/

/-- A Milvus search hit's document: `page_content` plus the metadata fields
read by `Retriever.retrieve`. -/
structure Doc where
  pageContent : String
  pk : Option String
  name : String
  image : String
  price : String
deriving DecidableEq, Repr

/-- Python substring test `needle in hay` (used by the category parsing and
matching code): true when `needle` occurs contiguously in `hay`. -/
def strContains (hay needle : String) : Bool :=
  needle == "" || (hay.splitOn needle).length > 1

/-- Query resolution (retriever.py lines 457-460): an empty caller-supplied
query list is replaced by one placeholder query. -/
def localQueries (query : List String) : List String :=
  if query.isEmpty then ["Can you find me something like this image?"] else query

/-- The `k` argument passed to each dispatched similarity search
(retriever.py lines 462-491): in image mode, one text search per resolved
query with `k`, plus the image search with `k * len(query)`; in text-only
mode, one search per resolved query, each with `k * len(query)`.
Note the code multiplies by the length of the ORIGINAL `query` list. -/
def dispatchKs (k : ℕ) (image_bool : Bool) (query : List String) : List ℕ :=
  if image_bool then
    (localQueries query).map (fun _ => k) ++ [k * query.length]
  else
    (localQueries query).map (fun _ => k * query.length)

/-- Descending-by-score comparison used with `mergeSort` to model
`sorted(..., key=lambda item: item[1], reverse=True)`. -/
def scoreDesc (a b : Doc × ℚ) : Bool := decide (b.2 ≤ a.2)

/-- Stage of retriever.py lines 493-497: sort each per-query hit list by
descending score. -/
def sortEachQueryResults (res : List (List (Doc × ℚ))) : List (List (Doc × ℚ)) :=
  res.map (fun l => l.mergeSort scoreDesc)

/-- Round-robin interleaving of retriever.py lines 513-524: a queue of
iterators; pop the front list, emit its head, re-enqueue its tail; an
exhausted (empty) list is dropped. -/
def interleave : List (List α) → List α
  | [] => []
  | [] :: rest => interleave rest
  | (x :: xs) :: rest => x :: interleave (rest ++ [xs])
termination_by l => (l.map List.length).sum + l.length
decreasing_by
  all_goals simp
  all_goals omega

/-- Fusion stage of retriever.py lines 504-524: image mode flattens all hit
lists and sorts globally by descending score; text-only mode round-robin
interleaves them. -/
def fuseResults (image_bool : Bool) (sorted : List (List (Doc × ℚ))) : List (Doc × ℚ) :=
  if image_bool then (sorted.flatten).mergeSort scoreDesc
  else interleave sorted

/-- Deduplication loop of retriever.py lines 526-534, carrying the `seen_ids`
set: a hit whose metadata has no usable `pk` (`id_ is None`) is skipped; a hit
whose id was already seen is skipped; otherwise it is kept and its id marked
seen. -/
def dedupAux (seen : List String) : List (Doc × ℚ) → List (Doc × ℚ)
  | [] => []
  | r :: rest =>
    match r.1.pk with
    | none => dedupAux seen rest
    | some id_ =>
      if id_ ∈ seen then dedupAux seen rest
      else r :: dedupAux (id_ :: seen) rest

/-- Deduplication stage (retriever.py lines 526-536), starting from an empty
`seen_ids` set. -/
def dedupByPk (l : List (Doc × ℚ)) : List (Doc × ℚ) := dedupAux [] l

/-- Threshold-and-top-k stage of retriever.py lines 549-554: truncate the
deduplicated list to `k`, then keep only hits with score strictly above the
similarity threshold. (The code does this on five parallel projections of the
deduplicated list, all with the same index logic.) -/
def thresholdTopK (k : ℕ) (thr : ℚ) (l : List (Doc × ℚ)) : List (Doc × ℚ) :=
  (l.take k).filter (fun r => decide (thr < r.2))

/-- Final re-sort and truncation of retriever.py lines 556-571: sort the
survivors by descending score and truncate to `k` again. -/
def finalSortTrunc (k : ℕ) (l : List (Doc × ℚ)) : List (Doc × ℚ) :=
  (l.mergeSort scoreDesc).take k

/-- The `text` component of a returned item (retriever.py line 543):
`page_content` with the price appended. -/
def finalText (d : Doc) : String := d.pageContent ++ "\nPRICE: " ++ d.price

/-- The `id` component of a returned item (retriever.py line 544):
`str(metadata["pk"])`. After deduplication the `pk` is always present, so the
default is unreachable there. -/
def idOf (r : Doc × ℚ) : String := r.1.pk.getD "None"

/-- Category extraction of retriever.py lines 577-598: take the last
`|`-separated segment of the item text, cut anything after an embedded
`PRICE:`, split on commas, trim and lowercase each part, and drop empty parts
and parts starting with `/`. -/
def parseCats (text : String) : List String :=
  let categoryPart := ((text.splitOn "|").getLastD "").trim
  let categoryPart :=
    if strContains categoryPart "PRICE:" then
      ((categoryPart.splitOn "PRICE:").headD "").trim
    else categoryPart
  ((categoryPart.splitOn ",").map (fun p => p.trim.toLower)).filter
    (fun c => c ≠ "" && !(c.startsWith "/"))

/-- Category match of retriever.py lines 624-634: some user term, lowercased
and trimmed, is a substring of some product category token or vice versa. -/
def catMatch (categories : List String) (cats : List String) : Bool :=
  categories.any (fun u =>
    cats.any (fun p =>
      strContains p (u.toLower.trim) || strContains (u.toLower.trim) p))

/-- Category filtering stage of retriever.py lines 616-647, applied to the
final hit list (the code zips the five projections with the per-item parsed
category list, which corresponds positionally). -/
def catFilter (categories : List String) (l : List (Doc × ℚ)) : List (Doc × ℚ) :=
  l.filter (fun r => catMatch categories (parseCats (finalText r.1)))

/-- Post-search pipeline of `Retriever.retrieve` (retriever.py lines
493-647), from the gathered per-query hit lists to the returned items:
per-query sort, fusion, dedup, threshold/top-k, final sort/truncate, then the
mode-dependent category policy (image mode returns unfiltered; text-only mode
with no category terms returns empty; otherwise category-filter). -/
def retrievePost (k : ℕ) (thr : ℚ) (image_bool : Bool) (categories : List String)
    (res : List (List (Doc × ℚ))) : List (Doc × ℚ) :=
  let sorted := sortEachQueryResults res
  let fused := fuseResults image_bool sorted
  let deduped := dedupByPk fused
  let survivors := thresholdTopK k thr deduped
  let final := finalSortTrunc k survivors
  if image_bool then final
  else if categories.isEmpty then []
  else catFilter categories final

/-- Existence check of `Retriever.embeddings_exist` (retriever.py lines
141-168): true iff both the text and the image collection hold at least one
entity. -/
def embeddingsExist (textCount imageCount : ℕ) : Bool :=
  decide (textCount > 0) && decide (imageCount > 0)

/-- Whether `Retriever.milvus_from_csv` (retriever.py lines 377-388) proceeds
to populate the collections: it returns early iff `embeddings_exist` is
true. -/
def milvusPopulates (textCount imageCount : ℕ) : Bool :=
  !(embeddingsExist textCount imageCount)

/-- Batching combinator shared by `_embed_chunks_in_batches` and
`image_embeddings` (both use `range(0, len(xs), 32)` with default batch size
32): apply the per-batch function to successive 32-element slices and
concatenate the results. -/
def batched32 (g : List α → List β) : List α → List β
  | [] => []
  | x :: xs => g ((x :: xs).take 32) ++ batched32 g ((x :: xs).drop 32)
termination_by l => l.length
decreasing_by
  all_goals simp
  all_goals omega

/-- Per-batch step of `Retriever._embed_chunks_in_batches` (retriever.py
lines 238-253): one remote call per batch; on success one vector per chunk
(the endpoint contract), on exception the whole batch becomes `None`. The
oracle `o` models `text_client.embeddings.create` on one batch. -/
def chunkBatchStep (o : List String → Option (List (List ℚ))) (b : List String) :
    List (Option (List ℚ)) :=
  match o b with
  | some vs => vs.map some
  | none => b.map (fun _ => none)

/-- `Retriever._embed_chunks_in_batches` (retriever.py lines 226-254). -/
def embedChunksInBatches (o : List String → Option (List (List ℚ)))
    (chunks : List String) : List (Option (List ℚ)) :=
  batched32 (chunkBatchStep o) chunks

/-- Sum of a list of vectors (the reduction inside `numpy.mean(vs, axis=0)`),
for equal-dimension vectors. -/
def vecSum : List (List ℚ) → List ℚ
  | [] => []
  | [v] => v
  | v :: vs => List.zipWith (· + ·) v (vecSum vs)

/-- Coordinate-wise arithmetic mean `numpy.mean(vs, axis=0)` (retriever.py
line 279); no re-normalization to unit length. -/
def vecMean (l : List (List ℚ)) : List ℚ :=
  (vecSum l).map (fun x => x / (l.length : ℚ))

/-- `Retriever._reconstruct_embeddings` (retriever.py lines 256-284),
recursing over the per-text chunk counts while consuming the flat chunk
embedding list: zero chunks yields `None`; otherwise average the non-`None`
embeddings of the text's slice, or `None` if all are absent. -/
def reconstructEmbeddings : List ℕ → List (Option (List ℚ)) → List (Option (List ℚ))
  | [], _ => []
  | c :: cs, embs =>
    if c = 0 then none :: reconstructEmbeddings cs embs
    else
      (let valid := (embs.take c).filterMap id
       if valid.isEmpty then none else some (vecMean valid)) ::
        reconstructEmbeddings cs (embs.drop c)

/-- `Retriever.text_embeddings` (retriever.py lines 189-209), with the chunk
splitter (`RecursiveCharacterTextSplitter.split_text`) and the per-batch
embedding call as oracles: empty input gives `[]`; if no text produced any
chunk, one `None` per text; otherwise batch-embed the flattened chunks and
reconstruct per-text embeddings. -/
def textEmbeddings (o : List String → Option (List (List ℚ)))
    (split : String → List String) (texts : List String) : List (Option (List ℚ)) :=
  if texts.isEmpty then []
  else
    let chunksPer := texts.map split
    let allChunks := chunksPer.flatten
    let counts := chunksPer.map List.length
    if allChunks.isEmpty then List.replicate texts.length none
    else reconstructEmbeddings counts (embedChunksInBatches o allChunks)

/-- `is_url` (utils.py lines 103-108): the regex `^https?://`, i.e. the
string begins with `http://` or `https://` (checked on the character
sequence). -/
def isUrl (s : String) : Bool :=
  "http://".data.isPrefixOf s.data || "https://".data.isPrefixOf s.data

/-- `is_path` (utils.py lines 110-115): the regex `^/`, i.e. the string
begins with `/`. -/
def isPath (s : String) : Bool := "/".data.isPrefixOf s.data

/-- `image_url_to_base64` (utils.py lines 44-84), with the fetch / decode /
thumbnail / JPEG-encode part as an oracle (`none` = a raised, caught
exception): on success, the function itself returns `None` when the encoded
data-URI string exceeds 65,535 characters. -/
def imageUrlToBase64 (rawEncode : String → Option String) (url : String) :
    Option String :=
  match rawEncode url with
  | none => none
  | some s => if s.length > 65535 then none else some s

/-- `image_path_to_base64` (utils.py lines 18-42): same shape as the URL
variant (a raised exception, e.g. a missing file, is caught by the caller's
`except` block and modelled as `none`). -/
def imagePathToBase64 (rawEncode : String → Option String) (path : String) :
    Option String :=
  match rawEncode path with
  | none => none
  | some s => if s.length > 65535 then none else some s

/-- Per-image normalization of `Retriever.image_embeddings` (retriever.py
lines 307-333): dispatch on URL / path / inline; a helper returning `None`
makes the following `len(input_data)` raise `TypeError`, caught by the
surrounding `except`, so the position becomes `None`; an oversized payload
gets exactly one `resize_base64_image` attempt (oracle `rz`, `none` = the
resize raised) and is kept only if the result is truthy and fits. -/
def processImage (urlEnc pathEnc rz : String → Option String) (text : String) :
    Option String :=
  let data : Option String :=
    if isUrl text then imageUrlToBase64 urlEnc text
    else if isPath text then imagePathToBase64 pathEnc text
    else some text
  match data with
  | none => none
  | some d =>
    if d.length > 65535 then
      match rz d with
      | some r => if r.length != 0 && r.length ≤ 65535 then some r else none
      | none => none
    else some d

/-- Splice loop of `Retriever.image_embeddings` (retriever.py lines 359-371):
walk the per-position normalized inputs, consuming one embedding from the
batch response stream per present input; `None` inputs stay `None`, and the
stream running dry (`StopIteration`) yields `None` for the rest. -/
def spliceBack : List (Option String) → List (List ℚ) → List (Option (List ℚ))
  | [], _ => []
  | none :: rest, s => none :: spliceBack rest s
  | some _ :: rest, [] => none :: spliceBack rest []
  | some _ :: rest, v :: s => some v :: spliceBack rest s

/-- Per-batch step of `Retriever.image_embeddings` (retriever.py lines
305-371): normalize each reference independently, call the image-embedding
endpoint once on the successfully normalized subset (`embed` oracle; `none` =
the call raised, giving an empty stream, and an empty subset skips the call),
then splice the response back into the original positional layout. -/
def imageBatchStep (urlEnc pathEnc rz : String → Option String)
    (embed : List String → Option (List (List ℚ))) (b : List String) :
    List (Option (List ℚ)) :=
  let inputDataList := b.map (processImage urlEnc pathEnc rz)
  let validInputs := inputDataList.filterMap id
  let stream : List (List ℚ) :=
    if validInputs.isEmpty then [] else (embed validInputs).getD []
  spliceBack inputDataList stream

/-- `Retriever.image_embeddings` (retriever.py lines 286-373). -/
def imageEmbeddings (urlEnc pathEnc rz : String → Option String)
    (embed : List String → Option (List (List ℚ))) (texts : List String) :
    List (Option (List ℚ)) :=
  batched32 (imageBatchStep urlEnc pathEnc rz embed) texts

/-- The batch containing position `32*j .. 32*j+31` of a list, as sliced by
`range(0, len, 32)`. -/
def nthBatch (l : List α) (j : ℕ) : List α := (l.drop (32 * j)).take 32

/-! ## Helper lemmas -/

theorem dedupAux_pk_isSome (l : List (Doc × ℚ)) :
    ∀ (seen : List String), ∀ r ∈ dedupAux seen l, r.1.pk.isSome := by
  induction l with
  | nil => intro seen r hr; simp [dedupAux] at hr
  | cons a rest ih =>
    intro seen r hr
    cases hpk : a.1.pk with
    | none => simp only [dedupAux, hpk] at hr; exact ih seen r hr
    | some i =>
      simp only [dedupAux, hpk] at hr
      by_cases hmem : i ∈ seen
      · rw [if_pos hmem] at hr; exact ih seen r hr
      · rw [if_neg hmem] at hr
        rcases List.mem_cons.mp hr with h | h
        · subst h; simp [hpk]
        · exact ih _ r h

theorem dedupAux_skips_missing_pk (l : List (Doc × ℚ)) :
    ∀ (seen : List String),
      dedupAux seen (l.filter (fun r => r.1.pk.isSome)) = dedupAux seen l := by
  induction l with
  | nil => intro seen; simp
  | cons a rest ih =>
    intro seen
    cases hpk : a.1.pk with
    | none => simp [List.filter_cons, hpk, dedupAux, ih]
    | some i =>
      simp only [List.filter_cons, hpk, Option.isSome_some, if_true]
      unfold dedupAux
      rw [hpk]
      by_cases hmem : i ∈ seen
      · simp [hmem, ih]
      · simp [hmem, ih]

theorem dedupAux_nodup_inv (l : List (Doc × ℚ)) :
    ∀ (seen : List String),
      ((dedupAux seen l).map (fun r => r.1.pk)).Nodup ∧
      (∀ r ∈ dedupAux seen l, ∀ s, r.1.pk = some s → s ∉ seen) := by
  induction l with
  | nil => intro seen; simp [dedupAux]
  | cons a rest ih =>
    intro seen
    cases hpk : a.1.pk with
    | none => simpa only [dedupAux, hpk] using ih seen
    | some i =>
      simp only [dedupAux, hpk]
      by_cases hmem : i ∈ seen
      · rw [if_pos hmem]; exact ih seen
      · rw [if_neg hmem]
        obtain ⟨ihnd, ihinv⟩ := ih (i :: seen)
        refine ⟨?_, ?_⟩
        · simp only [List.map_cons, List.nodup_cons]
          refine ⟨?_, ihnd⟩
          intro hcontra
          rw [List.mem_map] at hcontra
          obtain ⟨r, hr, hre⟩ := hcontra
          have := ihinv r hr i (by rw [hre, hpk])
          simp at this
        · intro r hr s hs
          rcases List.mem_cons.mp hr with h | h
          · subst h
            rw [hpk] at hs
            injection hs with hs'
            subst hs'
            exact hmem
          · have := ihinv r h s hs
            intro hcon
            exact this (List.mem_cons_of_mem _ hcon)

theorem dedup_ids_nodup (l : List (Doc × ℚ)) : ((dedupByPk l).map idOf).Nodup := by
  have hnd := (dedupAux_nodup_inv l []).1
  have hsome := dedupAux_pk_isSome l []
  unfold dedupByPk
  rw [List.Nodup, List.pairwise_map]
  rw [List.Nodup, List.pairwise_map] at hnd
  refine hnd.imp_of_mem ?_
  intro a b ha hb hne
  obtain ⟨sa, hsa⟩ := Option.isSome_iff_exists.mp (hsome a ha)
  obtain ⟨sb, hsb⟩ := Option.isSome_iff_exists.mp (hsome b hb)
  simp only [idOf, hsa, hsb, Option.getD_some]
  intro h
  exact hne (by rw [hsa, hsb, h])

/-! ## Claim theorems -/

/-- C1: the claim says every text-only similarity search requests
`k × n` candidates with `n` the number of queries actually searched (so
`n ≥ 1` after placeholder substitution), and in image mode the image search
requests `k × n`. The code instead multiplies by the length of the ORIGINAL
caller-supplied query list: with an empty query list it searches the one
placeholder query but requests `4 × 0 = 0` candidates (and `0` for the
image-collection search), not `4 × 1 = 4`. With a nonempty query list the
sizes do match the claim. -/
theorem c1_dispatch_sizes_empty_query :
    dispatchKs 4 false [] = [0] ∧
    dispatchKs 4 true [] = [4, 0] ∧
    (localQueries []).length = 1 ∧
    dispatchKs 4 false ["red shoes", "blue shoes"] = [8, 8] := by
  decide

/-- C9 (counterexample): the claim says the bulk import populates iff BOTH
collections are empty. With 5 entities in the text collection and 0 in the
image collection, `embeddings_exist` is false, so `milvus_from_csv` proceeds
to populate — even though not both collections are empty (and it then adds to
the already-populated text collection). -/
theorem c9_counterexample_populates_when_one_nonempty :
    milvusPopulates 5 0 = true ∧ ¬ ((5 : ℕ) = 0 ∧ (0 : ℕ) = 0) := by
  decide

/-- C9 (amended): `milvus_from_csv` populates the collections iff at least
one of the two collections is currently empty; equivalently, it skips
population only when both collections already hold data. -/
theorem c9_populates_iff_some_collection_empty (tc ic : ℕ) :
    milvusPopulates tc ic = true ↔ (tc = 0 ∨ ic = 0) := by
  simp only [milvusPopulates, embeddingsExist, Bool.not_eq_true',
    Bool.and_eq_false_iff, decide_eq_false_iff_not]
  omega

/-- C3: in text-only mode with an empty category-term list the retrieval
returns empty result lists no matter what the searches returned; in image
mode the category filter is skipped and the thresholded, ranked survivors are
returned unfiltered (the result does not depend on the category terms at
all). -/
theorem c3_category_policy (k : ℕ) (thr : ℚ) (cats : List String)
    (res : List (List (Doc × ℚ))) :
    retrievePost k thr false [] res = [] ∧
    retrievePost k thr true cats res =
      finalSortTrunc k (thresholdTopK k thr
        (dedupByPk (fuseResults true (sortEachQueryResults res)))) := by
  constructor
  · simp [retrievePost]
  · simp [retrievePost]

/-- C10: deduplication drops every fused candidate whose metadata lacks a
usable `pk` (missing key or `None`): every survivor of deduplication — the
only input to thresholding, ranking and the returned lists — has a present
id, and removing the id-less candidates beforehand changes nothing (they
never influence the result, whatever their similarity score). -/
theorem c10_missing_pk_dropped (l : List (Doc × ℚ)) :
    (∀ r ∈ dedupByPk l, r.1.pk.isSome) ∧
    dedupByPk (l.filter (fun r => r.1.pk.isSome)) = dedupByPk l :=
  ⟨dedupAux_pk_isSome l [], dedupAux_skips_missing_pk l []⟩

/-- Witness for C10 at a concrete list: a candidate with `pk = None` and top
similarity is removed; deduplicating after dropping it gives the same
output. -/
theorem c10_missing_pk_dropped_witness :
    dedupByPk ([((⟨"t", none, "n", "i", "p"⟩ : Doc), (99 : ℚ)),
                ((⟨"u", some "7", "m", "j", "q"⟩ : Doc), (1 : ℚ) / 2)].filter
        (fun r => r.1.pk.isSome)) =
      dedupByPk [((⟨"t", none, "n", "i", "p"⟩ : Doc), (99 : ℚ)),
                 ((⟨"u", some "7", "m", "j", "q"⟩ : Doc), (1 : ℚ) / 2)] :=
  (c10_missing_pk_dropped _).2

theorem interleave_rot (rest : List (List α)) :
    ∀ (acc : List (List α)),
      interleave (rest ++ acc) =
        rest.filterMap List.head? ++
          interleave (acc ++ rest.filterMap List.tail?) := by
  induction rest with
  | nil => intro acc; simp
  | cons hd tl ih =>
    intro acc
    cases hd with
    | nil =>
      simp only [List.cons_append]
      rw [show interleave ([] :: (tl ++ acc)) = interleave (tl ++ acc) from by
        simp [interleave]]
      simpa using ih acc
    | cons x xs =>
      simp only [List.cons_append]
      rw [show interleave ((x :: xs) :: (tl ++ acc)) =
            x :: interleave ((tl ++ acc) ++ [xs]) from by simp [interleave]]
      rw [List.append_assoc, ih (acc ++ [xs])]
      simp

theorem interleave_cycle (l : List (List α)) :
    interleave l = l.filterMap List.head? ++ interleave (l.filterMap List.tail?) := by
  have h := interleave_rot l []
  simpa using h

/-- C4: text-only fusion is round-robin interleaving — each cycle takes the
head of every non-exhausted per-query list in order and continues with the
tails until all lists are exhausted. In particular, for two per-query hit
lists with scores `[0.9, 0.8]` and `[0.85, 0.7]`, the fused order before
dedup/threshold is `[0.9, 0.85, 0.8, 0.7]`. -/
theorem c4_round_robin_interleave :
    (∀ (l : List (List (Doc × ℚ))),
        interleave l =
          l.filterMap List.head? ++ interleave (l.filterMap List.tail?)) ∧
    (interleave
        [[((⟨"red shoes 1", some "1", "r1", "i1", "p1"⟩ : Doc), (9 : ℚ) / 10),
          ((⟨"red shoes 2", some "2", "r2", "i2", "p2"⟩ : Doc), (8 : ℚ) / 10)],
         [((⟨"blue shoes 1", some "3", "b1", "i3", "p3"⟩ : Doc), (85 : ℚ) / 100),
          ((⟨"blue shoes 2", some "4", "b2", "i4", "p4"⟩ : Doc), (7 : ℚ) / 10)]]).map
        (fun r => r.2) = [9 / 10, 85 / 100, 8 / 10, 7 / 10] := by
  refine ⟨fun l => interleave_cycle l, ?_⟩
  simp [interleave]

theorem scoreDesc_trans (a b c : Doc × ℚ) :
    scoreDesc a b → scoreDesc b c → scoreDesc a c := by
  simp only [scoreDesc, decide_eq_true_eq]
  intro h1 h2
  exact h2.trans h1

theorem scoreDesc_total (a b : Doc × ℚ) : scoreDesc a b || scoreDesc b a := by
  simp only [scoreDesc]
  rcases le_total a.2 b.2 with h | h <;> simp [h]

theorem finalSortTrunc_length_le (k : ℕ) (l : List (Doc × ℚ)) :
    (finalSortTrunc k l).length ≤ k := by
  simp [finalSortTrunc, List.length_take]

theorem finalSortTrunc_mem (k : ℕ) (l : List (Doc × ℚ)) :
    ∀ r ∈ finalSortTrunc k l, r ∈ l := by
  intro r hr
  exact List.mem_mergeSort.mp (List.mem_of_mem_take hr)

theorem thresholdTopK_gt (k : ℕ) (thr : ℚ) (l : List (Doc × ℚ)) :
    ∀ r ∈ thresholdTopK k thr l, thr < r.2 := by
  intro r hr
  have := List.of_mem_filter hr
  simpa using this

theorem thresholdTopK_sublist (k : ℕ) (thr : ℚ) (l : List (Doc × ℚ)) :
    List.Sublist (thresholdTopK k thr l) l :=
  (List.filter_sublist _).trans (List.take_sublist k l)

theorem finalSortTrunc_sorted (k : ℕ) (l : List (Doc × ℚ)) :
    ((finalSortTrunc k l).map (fun r => r.2)).Pairwise (· ≥ ·) := by
  have hs : (l.mergeSort scoreDesc).Pairwise (fun a b => scoreDesc a b) :=
    List.sorted_mergeSort scoreDesc_trans scoreDesc_total l
  have hs2 : (finalSortTrunc k l).Pairwise (fun a b => scoreDesc a b) :=
    hs.sublist (List.take_sublist k _)
  rw [List.pairwise_map]
  exact hs2.imp (by intro a b h; simpa [scoreDesc, ge_iff_le] using h)

theorem finalSortTrunc_ids_nodup (k : ℕ) (l : List (Doc × ℚ))
    (h : (l.map idOf).Nodup) : ((finalSortTrunc k l).map idOf).Nodup := by
  have hperm : List.Perm (l.mergeSort scoreDesc) l := List.mergeSort_perm l scoreDesc
  have h2 : ((l.mergeSort scoreDesc).map idOf).Nodup :=
    ((hperm.map idOf).nodup_iff).mpr h
  exact h2.sublist ((List.take_sublist k _).map idOf)

theorem outputProps (k : ℕ) (thr : ℚ) (l out : List (Doc × ℚ))
    (hnd : (l.map idOf).Nodup)
    (hsub : List.Sublist out (finalSortTrunc k (thresholdTopK k thr l))) :
    out.length ≤ k ∧ (∀ r ∈ out, thr < r.2) ∧
    ((out.map (fun r => r.2)).Pairwise (· ≥ ·)) ∧ ((out.map idOf).Nodup) := by
  refine ⟨?_, ?_, ?_, ?_⟩
  · exact le_trans hsub.length_le (finalSortTrunc_length_le k _)
  · intro r hr
    exact thresholdTopK_gt k thr l r (finalSortTrunc_mem _ _ r (hsub.subset hr))
  · exact (finalSortTrunc_sorted k _).sublist (hsub.map _)
  · have hnd2 : ((thresholdTopK k thr l).map idOf).Nodup :=
      hnd.sublist ((thresholdTopK_sublist k thr l).map idOf)
    exact (finalSortTrunc_ids_nodup k _ hnd2).sublist (hsub.map idOf)

theorem retrievePost_sublist_final (k : ℕ) (thr : ℚ) (ib : Bool)
    (cats : List String) (res : List (List (Doc × ℚ))) :
    List.Sublist (retrievePost k thr ib cats res)
      (finalSortTrunc k (thresholdTopK k thr
        (dedupByPk (fuseResults ib (sortEachQueryResults res))))) := by
  simp only [retrievePost]
  cases ib
  · by_cases hc : cats.isEmpty
    · simp [hc]
    · simp only [hc, Bool.false_eq_true, if_false, catFilter]
      exact List.filter_sublist _
  · simp

/-- C2: every retrieval output has at most `k` items, every returned
similarity is strictly above the threshold, items are ordered by descending
similarity, and the returned ids are pairwise distinct — in both modes, for
every input (in particular even when all searched candidates share one
id). -/
theorem c2_output_invariants (k : ℕ) (thr : ℚ) (ib : Bool) (cats : List String)
    (res : List (List (Doc × ℚ))) :
    (retrievePost k thr ib cats res).length ≤ k ∧
    (∀ r ∈ retrievePost k thr ib cats res, thr < r.2) ∧
    ((retrievePost k thr ib cats res).map (fun r => r.2)).Pairwise (· ≥ ·) ∧
    ((retrievePost k thr ib cats res).map idOf).Nodup :=
  outputProps k thr _ _ (dedup_ids_nodup _)
    (retrievePost_sublist_final k thr ib cats res)

/-- Witness for C2 at a concrete call: two per-query hit lists whose
candidates all share the id `"1"`; the returned list has at most 4 items. -/
theorem c2_output_invariants_witness :
    (retrievePost 4 ((1 : ℚ) / 2) true ["shoes"]
        [[((⟨"a | d | c,s", some "1", "n1", "i1", "p1"⟩ : Doc), (9 : ℚ) / 10),
          ((⟨"b | d | c,s", some "1", "n2", "i2", "p2"⟩ : Doc), (8 : ℚ) / 10)],
         [((⟨"c | d | c,s", some "1", "n3", "i3", "p3"⟩ : Doc), (85 : ℚ) / 100)]]).length ≤ 4 :=
  (c2_output_invariants 4 ((1 : ℚ) / 2) true ["shoes"] _).1

/-- C5: for each text index `i`, the reconstructed embedding is computed from
exactly that text's slice of the flat chunk-embedding list (offset = sum of
the previous chunk counts): it is the coordinate-wise arithmetic mean
(`vecMean`, no re-normalization) of the non-absent chunk vectors in the
slice, and it is absent when the text has zero chunks or all its chunk
embeddings are absent (both make the filtered slice empty). -/
theorem c5_reconstruction (counts : List ℕ) (embs : List (Option (List ℚ)))
    (i : ℕ) (hi : i < counts.length) :
    (reconstructEmbeddings counts embs)[i]? =
      some
        (if (((embs.drop ((counts.take i).sum)).take (counts.getD i 0)).filterMap id).isEmpty
          then none
          else some (vecMean
            (((embs.drop ((counts.take i).sum)).take (counts.getD i 0)).filterMap id))) := by
  induction counts generalizing i embs with
  | nil => simp at hi
  | cons c cs ih =>
    cases i with
    | zero =>
      by_cases hc : c = 0
      · subst hc; simp [reconstructEmbeddings]
      · simp [reconstructEmbeddings, hc]
    | succ j =>
      have hj : j < cs.length := by simpa using hi
      by_cases hc : c = 0
      · subst hc
        simp only [reconstructEmbeddings, if_true, List.getElem?_cons_succ]
        rw [ih embs j hj]
        simp
      · simp only [reconstructEmbeddings]
        rw [if_neg hc, List.getElem?_cons_succ, ih (embs.drop c) j hj]
        rw [List.drop_drop]
        simp [Nat.add_comm]

/-- Witness for C5: a text with three chunks whose embeddings are
`[v1, absent, v3]` reconstructs to the elementwise mean of `v1` and `v3`. -/
theorem c5_reconstruction_witness :
    (reconstructEmbeddings [3] [some [(1 : ℚ), 2], none, some [3, 4]])[0]? =
      some (some [(2 : ℚ), 3]) := by
  have h := c5_reconstruction [3] [some [(1 : ℚ), 2], none, some [3, 4]] 0 (by decide)
  rw [h]
  norm_num [vecMean, vecSum, List.filterMap_cons]

theorem batched32_length (g : List α → List β)
    (hg : ∀ b : List α, b ≠ [] → (g b).length = b.length) :
    ∀ l : List α, (batched32 g l).length = l.length := by
  suffices h : ∀ (n : ℕ) (l : List α), l.length ≤ n →
      (batched32 g l).length = l.length by
    intro l; exact h l.length l le_rfl
  intro n
  induction n with
  | zero =>
    intro l hl
    rw [List.length_eq_zero.mp (Nat.le_zero.mp hl)]
    simp [batched32]
  | succ n ih =>
    intro l hl
    cases l with
    | nil => simp [batched32]
    | cons x xs =>
      simp only [batched32]
      rw [List.length_append, hg _ (by simp),
        ih _ (by simp only [List.length_drop]; simp at hl ⊢; omega)]
      simp only [List.length_take, List.length_drop]
      omega

theorem batched32_getElem (g : List α → List β)
    (hg : ∀ b : List α, b ≠ [] → (g b).length = b.length) :
    ∀ (l : List α) (p : ℕ), p < l.length →
      (batched32 g l)[p]? = (g (nthBatch l (p / 32)))[p % 32]? := by
  suffices h : ∀ (n : ℕ) (l : List α) (p : ℕ), l.length ≤ n → p < l.length →
      (batched32 g l)[p]? = (g (nthBatch l (p / 32)))[p % 32]? by
    intro l p hp; exact h l.length l p le_rfl hp
  intro n
  induction n with
  | zero => intro l p hl hp; omega
  | succ n ih =>
    intro l p hl hp
    cases l with
    | nil => simp at hp
    | cons x xs =>
      simp only [batched32]
      by_cases h32 : p < 32
      · have hlt : p < (g ((x :: xs).take 32)).length := by
          rw [hg _ (by simp)]
          simp only [List.length_take, List.length_cons]
          simp only [List.length_cons] at hp
          omega
        rw [List.getElem?_append_left hlt]
        have hdiv : p / 32 = 0 := Nat.div_eq_of_lt h32
        have hmod : p % 32 = p := Nat.mod_eq_of_lt h32
        rw [hdiv, hmod]
        simp [nthBatch]
      · push_neg at h32
        have hlen32 : (g ((x :: xs).take 32)).length = 32 := by
          rw [hg _ (by simp)]
          simp only [List.length_take, List.length_cons]
          simp only [List.length_cons] at hp
          omega
        rw [List.getElem?_append_right (by omega), hlen32]
        rw [ih ((x :: xs).drop 32) (p - 32)
          (by simp only [List.length_drop]; simp at hl ⊢; omega)
          (by simp only [List.length_drop]; simp at hp ⊢; omega)]
        have hb : nthBatch ((x :: xs).drop 32) ((p - 32) / 32) =
            nthBatch (x :: xs) (p / 32) := by
          rw [nthBatch, nthBatch, List.drop_drop]
          congr 2
          omega
        have hm : (p - 32) % 32 = p % 32 := by omega
        rw [hb, hm]

/-- C7: position-wise characterization of batched chunk embedding, assuming
the endpoint contract (a successful batch call returns one vector per chunk):
the output at position `p` is determined solely by the remote call on `p`'s
own batch — if that batch's call failed it is the absence marker, if it
succeeded it is that batch's `p mod 32`-th vector — so a failing batch marks
exactly its own positions absent, leaves every other batch untouched, and no
exception escapes (the function is total). -/
theorem c7_batch_failure_isolated (o : List String → Option (List (List ℚ)))
    (chunks : List String)
    (hlen : ∀ b vs, o b = some vs → vs.length = b.length)
    (p : ℕ) (hp : p < chunks.length) :
    (embedChunksInBatches o chunks)[p]? =
      some ((o (nthBatch chunks (p / 32))).bind (fun vs => vs[p % 32]?)) := by
  have hg : ∀ b : List String, b ≠ [] → (chunkBatchStep o b).length = b.length := by
    intro b hb
    unfold chunkBatchStep
    cases h : o b with
    | none => simp
    | some vs => simp [hlen b vs h]
  rw [embedChunksInBatches, batched32_getElem _ hg chunks p hp]
  have hbl : p % 32 < (nthBatch chunks (p / 32)).length := by
    rw [nthBatch]
    simp only [List.length_take, List.length_drop]
    omega
  unfold chunkBatchStep
  cases h : o (nthBatch chunks (p / 32)) with
  | none =>
    simp only [Option.none_bind]
    rw [List.getElem?_map, List.getElem?_eq_getElem hbl]
    simp
  | some vs =>
    have hvs : p % 32 < vs.length := by rw [hlen _ _ h]; exact hbl
    simp only [Option.some_bind]
    rw [List.getElem?_map, List.getElem?_eq_getElem hvs]
    simp

/-- Witness for C7: a single batch whose remote call fails; position 0 of the
output carries the absence marker. -/
theorem c7_batch_failure_isolated_witness :
    (embedChunksInBatches (fun _ => none) ["chunk a"])[0]? = some none := by
  have h := c7_batch_failure_isolated (fun _ => none) ["chunk a"]
    (by intro b vs hbv; simp at hbv) 0 (by simp)
  simpa using h

theorem reconstructEmbeddings_length :
    ∀ (counts : List ℕ) (embs : List (Option (List ℚ))),
      (reconstructEmbeddings counts embs).length = counts.length := by
  intro counts
  induction counts with
  | nil => intro embs; simp [reconstructEmbeddings]
  | cons c cs ih =>
    intro embs
    by_cases hc : c = 0
    · subst hc; simp [reconstructEmbeddings, ih]
    · simp [reconstructEmbeddings, hc, ih]

theorem spliceBack_length :
    ∀ (inputs : List (Option String)) (s : List (List ℚ)),
      (spliceBack inputs s).length = inputs.length := by
  intro inputs
  induction inputs with
  | nil => intro s; simp [spliceBack]
  | cons i0 rest ih =>
    intro s
    cases i0 with
    | none => simp [spliceBack, ih]
    | some v =>
      cases s with
      | nil => simp [spliceBack, ih]
      | cons w s2 => simp [spliceBack, ih]

theorem imageBatchStep_length (urlEnc pathEnc rz : String → Option String)
    (embed : List String → Option (List (List ℚ))) (b : List String) :
    (imageBatchStep urlEnc pathEnc rz embed b).length = b.length := by
  unfold imageBatchStep
  rw [spliceBack_length]
  simp

theorem spliceBack_getElem_none :
    ∀ (inputs : List (Option String)) (s : List (List ℚ)) (j : ℕ),
      inputs[j]? = some none → (spliceBack inputs s)[j]? = some none := by
  intro inputs
  induction inputs with
  | nil => intro s j h; simp at h
  | cons i0 rest ih =>
    intro s j h
    cases j with
    | zero =>
      simp only [List.getElem?_cons_zero, Option.some_inj] at h
      subst h
      simp [spliceBack]
    | succ j2 =>
      simp only [List.getElem?_cons_succ] at h
      cases i0 with
      | none => simpa [spliceBack] using ih s j2 h
      | some v =>
        cases s with
        | nil => simpa [spliceBack] using ih [] j2 h
        | cons w s2 => simpa [spliceBack] using ih s2 j2 h

/-- C6: both embedding operations preserve length and positional order for
every input and every pattern of per-position or per-batch failures (the
oracles are arbitrary): `text_embeddings` returns exactly one (possibly
absent) output per input text; `image_embeddings` returns exactly one output
per input reference; and a reference whose normalization fails gets the
absence marker at its own position instead of being dropped. -/
theorem c6_length_preservation (o : List String → Option (List (List ℚ)))
    (split : String → List String) (texts : List String)
    (urlEnc pathEnc rz : String → Option String)
    (embed : List String → Option (List (List ℚ))) (refs : List String) :
    (textEmbeddings o split texts).length = texts.length ∧
    (imageEmbeddings urlEnc pathEnc rz embed refs).length = refs.length ∧
    (∀ (p : ℕ) (r : String), refs[p]? = some r →
      processImage urlEnc pathEnc rz r = none →
      (imageEmbeddings urlEnc pathEnc rz embed refs)[p]? = some none) := by
  refine ⟨?_, ?_, ?_⟩
  · simp only [textEmbeddings]
    by_cases h1 : texts.isEmpty
    · rw [if_pos h1, List.isEmpty_iff.mp h1]
      rfl
    · rw [if_neg h1]
      by_cases h2 : ((texts.map split).flatten).isEmpty
      · rw [if_pos h2]; simp
      · rw [if_neg h2, reconstructEmbeddings_length]; simp
  · exact batched32_length _
      (fun b _ => imageBatchStep_length urlEnc pathEnc rz embed b) refs
  · intro p r hpr hproc
    have hp : p < refs.length := by
      by_contra hcon
      push_neg at hcon
      rw [List.getElem?_eq_none hcon] at hpr
      cases hpr
    rw [imageEmbeddings, batched32_getElem _
      (fun b _ => imageBatchStep_length urlEnc pathEnc rz embed b) refs p hp]
    unfold imageBatchStep
    apply spliceBack_getElem_none
    rw [List.getElem?_map]
    have hnb : (nthBatch refs (p / 32))[p % 32]? = some r := by
      rw [nthBatch, List.getElem?_take_of_lt (by omega), List.getElem?_drop]
      rw [show 32 * (p / 32) + p % 32 = p from by omega]
      exact hpr
    rw [hnb]
    simp [hproc]

/-- Witness for C6: a one-element reference list whose only entry is a local
path that fails to read; the output has the absence marker at position 0. -/
theorem c6_length_preservation_witness :
    (imageEmbeddings (fun _ => none) (fun _ => none) (fun _ => none)
        (fun _ => none) ["/missing.jpg"])[0]? = some none :=
  (c6_length_preservation (fun _ => none) (fun _ => [])
      [] (fun _ => none) (fun _ => none) (fun _ => none)
      (fun _ => none) ["/missing.jpg"]).2.2 0 "/missing.jpg" rfl
    (by simp [processImage, imagePathToBase64, isPath, isUrl])

theorem imageUrlToBase64_le (rawE : String → Option String) (u s : String)
    (h : imageUrlToBase64 rawE u = some s) : s.length ≤ 65535 := by
  unfold imageUrlToBase64 at h
  cases hr : rawE u with
  | none => rw [hr] at h; cases h
  | some d =>
    rw [hr] at h
    dsimp only at h
    by_cases hd : d.length > 65535
    · rw [if_pos hd] at h; cases h
    · rw [if_neg hd] at h
      injection h with h2
      subst h2
      omega

theorem processImage_url_none (urlEnc pathEnc rz : String → Option String)
    (t : String) (hu : isUrl t = true)
    (hnone : imageUrlToBase64 urlEnc t = none) :
    processImage urlEnc pathEnc rz t = none := by
  simp [processImage, hu, hnone]

theorem processImage_path_none (urlEnc pathEnc rz : String → Option String)
    (t : String) (hp : isPath t = true) (hu : isUrl t = false)
    (hnone : imagePathToBase64 pathEnc t = none) :
    processImage urlEnc pathEnc rz t = none := by
  simp [processImage, hu, hp, hnone]

theorem processImage_inline_oversize (urlEnc pathEnc rz : String → Option String)
    (t : String) (hu : isUrl t = false) (hp : isPath t = false)
    (hlen : 65535 < t.length) :
    processImage urlEnc pathEnc rz t =
      (match rz t with
       | some r => if r.length != 0 && r.length ≤ 65535 then some r else none
       | none => none) := by
  simp only [processImage, hu, hp, Bool.false_eq_true, if_false]
  rw [if_pos hlen]

theorem processImage_url_rz_independent (urlEnc pathEnc rz rz2 : String → Option String)
    (t : String) (hu : isUrl t = true) :
    processImage urlEnc pathEnc rz t = processImage urlEnc pathEnc rz2 t := by
  simp only [processImage, hu, if_true]
  cases h : imageUrlToBase64 urlEnc t with
  | none => simp
  | some s =>
    have hle := imageUrlToBase64_le urlEnc t s h
    simp [Nat.not_lt.mpr hle]

/-- C8 (counterexample): a URL reference whose fetched-and-encoded payload
exceeds the 65,535 ceiling is made absent by the helper itself — NO
resize-and-recompress pass is attempted, even with a resize step that would
have returned a small (non-empty, fitting) payload, contradicting the claim
that every oversized payload gets exactly one resize attempt (whose fitting
result would be kept). -/
theorem c8_counterexample_url_oversize_no_resize :
    processImage (fun _ => some (String.mk (List.replicate 65600 'a')))
        (fun _ => none) (fun _ => some "small") "http://img" = none ∧
    65535 < (String.mk (List.replicate 65600 'a')).length ∧
    (fun _ : String => some "small") (String.mk (List.replicate 65600 'a')) =
      some "small" ∧
    "small".length ≠ 0 ∧ "small".length ≤ 65535 := by
  have hlen : (String.mk (List.replicate 65600 'a')).length = 65600 := by
    rw [show ∀ l, (String.mk l).length = l.length from fun _ => rfl,
      List.length_replicate]
  refine ⟨?_, by rw [hlen]; omega, rfl, by decide, by decide⟩
  apply processImage_url_none
  · decide
  · unfold imageUrlToBase64
    dsimp only
    rw [if_pos (by rw [hlen]; omega)]

/-- C8 (amended): only an inline reference (neither URL nor path) whose
payload exceeds the 65,535 ceiling gets the single resize-and-recompress
attempt, kept only when the resized payload is non-empty and fits; for
URL/path references the fetch helper itself yields absence — on fetch/decode
error or when its own encoding is oversized — and the resize step is never
consulted (for a URL reference the result does not depend on the resize
function at all); every failure yields absence for that position only, never
an exception. -/
theorem c8_amended_normalization (urlEnc pathEnc rz : String → Option String)
    (t : String) :
    (isUrl t = false → isPath t = false → 65535 < t.length →
      processImage urlEnc pathEnc rz t =
        (match rz t with
         | some r => if r.length != 0 && r.length ≤ 65535 then some r else none
         | none => none)) ∧
    (isUrl t = true → imageUrlToBase64 urlEnc t = none →
      processImage urlEnc pathEnc rz t = none) ∧
    (isPath t = true → isUrl t = false → imagePathToBase64 pathEnc t = none →
      processImage urlEnc pathEnc rz t = none) ∧
    (∀ rz2 : String → Option String, isUrl t = true →
      processImage urlEnc pathEnc rz t = processImage urlEnc pathEnc rz2 t) :=
  ⟨fun hu hp hlen => processImage_inline_oversize urlEnc pathEnc rz t hu hp hlen,
   fun hu hnone => processImage_url_none urlEnc pathEnc rz t hu hnone,
   fun hp hu hnone => processImage_path_none urlEnc pathEnc rz t hp hu hnone,
   fun rz2 hu => processImage_url_rz_independent urlEnc pathEnc rz rz2 t hu⟩

/-- Witness for C8 (amended) at a concrete failing fetch: a URL reference
whose fetch raises becomes absent (and the resize oracle is never
consulted). -/
theorem c8_amended_normalization_witness :
    processImage (fun _ => none) (fun _ => none) (fun _ => some "r")
      "http://x" = none :=
  (c8_amended_normalization (fun _ => none) (fun _ => none)
      (fun _ => some "r") "http://x").2.1 (by decide) rfl
